import Mathlib

/-!
Shallow embedding of `rusoto/signature/src/stream.rs`.

The source adapts a `futures` stream of `Result<Bytes, io::Error>` chunks into
an `AsyncRead` (`ImplAsyncRead`) and a blocking `Read` (`ImplBlockingRead`).
Bytes are modelled as natural numbers, a `Bytes` chunk as a `List Nat`, the
inner stream as the list of items it will yield in order (a `stream::iter`
style stream that is always ready, so `Poll::Pending` does not arise), and
`io::Error` as an abstract type `ε`.  The `Fuse` wrapper produced by
`stream.fuse()` is modelled by a `done` flag, and a ghost counter `polls`
instruments how many times the inner (pre-fuse) stream has been polled.
-/

namespace RusotoStream

/-- A `Bytes` chunk: an immutable run of bytes, one byte per list entry. -/
abbrev Chunk : Type := List Nat

/-- One item of the wrapped stream: `Result<Bytes, io::Error>`. -/
abbrev Item (ε : Type) : Type := Except ε Chunk

variable {ε : Type}

/-- `ByteStream` (stream.rs lines 11-18): optional size hint plus the boxed
inner stream of fallible chunks, modelled as the list of items it yields. -/
structure ByteStream (ε : Type) where
  size_hint : Option Nat
  inner : List (Item ε)

/-- `ByteStream::new` (lines 22-30): wrap a stream, with no size hint. -/
def ByteStream.new (stream : List (Item ε)) : ByteStream ε :=
  ⟨none, stream⟩

/-- `ByteStream::new_with_size` (lines 34-42): wrap a stream and record the
given size hint. -/
def ByteStream.new_with_size (stream : List (Item ε)) (size_hint : Nat) :
    ByteStream ε :=
  ⟨some size_hint, stream⟩

/-- `From<Bytes> for ByteStream` and `From<Vec<u8>> for ByteStream`
(lines 59-75): wrap the buffer as a one-element stream of `Ok(buf)` and set
the size hint to the buffer length. -/
def ByteStream.from_bytes (buf : Chunk) : ByteStream ε :=
  ⟨some buf.length, [Except.ok buf]⟩

/-- `ByteStream::size_hint` (lines 44-46): takes `&self`, so it returns the
recorded hint together with the untouched receiver. -/
def ByteStream.sizeHintFn (bs : ByteStream ε) : Option Nat × ByteStream ε :=
  (bs.size_hint, bs)

/-- `ImplAsyncRead` (lines 92-98): the retained buffer of unconsumed bytes and
the fused stream.  `stream` is the list of items the inner stream has not yet
yielded, `done` is the flag `Fuse` keeps once the inner stream returned
`None`, and `polls` is a ghost counter of polls delivered to the inner
(pre-fuse) stream, used to state how often the source is pulled. -/
structure ImplAsyncRead (ε : Type) where
  buffer : Chunk
  stream : List (Item ε)
  done : Bool
  polls : Nat

/-- One poll of the fused stream (`Fuse::poll_next`): when `done` is set the
inner stream is not polled and `None` is returned; otherwise the inner stream
is polled once, and yielding `None` sets `done`. -/
def fusePoll (s : ImplAsyncRead ε) : Option (Item ε) × ImplAsyncRead ε :=
  if s.done then
    (none, s)
  else
    match s.stream with
    | [] => (none, { s with done := true, polls := s.polls + 1 })
    | item :: rest => (some item, { s with stream := rest, polls := s.polls + 1 })

/-- Lines 125-128 of `poll_read`: copy
`available = min(buf.remaining(), buffer.len())` bytes out of the front of
the retained buffer into the target buffer. -/
def serve (cap : Nat) (s : ImplAsyncRead ε) : Except ε Chunk × ImplAsyncRead ε :=
  let available := min cap s.buffer.length
  (Except.ok (s.buffer.take available), { s with buffer := s.buffer.drop available })

/-- `ImplAsyncRead::poll_read` (lines 109-130) for a target buffer of capacity
`cap`, returning the bytes written into the target buffer (the filled region)
or the propagated error, together with the updated reader.  The stream is
always ready, so the `futures::ready!` suspension never yields `Pending`
here. -/
def pollRead (cap : Nat) (s : ImplAsyncRead ε) : Except ε Chunk × ImplAsyncRead ε :=
  if s.buffer.isEmpty then
    match fusePoll s with
    | (none, s1) => (Except.ok [], s1)
    | (some (Except.error e), s1) => (Except.error e, s1)
    | (some (Except.ok bytes), s1) => serve cap { s1 with buffer := s1.buffer ++ bytes }
  else
    serve cap s

/-- `ByteStream::into_async_read` via `ImplAsyncRead::new` (lines 49-51 and
100-107): empty retained buffer, fused stream, no polls delivered yet. -/
def ByteStream.into_async_read (bs : ByteStream ε) : ImplAsyncRead ε :=
  ⟨[], bs.inner, false, 0⟩

/-- `ImplBlockingRead` (lines 132-137): a wrapper owning one `ImplAsyncRead`. -/
structure ImplBlockingRead (ε : Type) where
  inner : ImplAsyncRead ε

/-- `ByteStream::into_blocking_read` via `ImplBlockingRead::new`
(lines 54-56 and 139-145). -/
def ByteStream.into_blocking_read (bs : ByteStream ε) : ImplBlockingRead ε :=
  ⟨⟨[], bs.inner, false, 0⟩⟩

/-- `ImplBlockingRead::read` (lines 147-160).  `tokio::runtime::Runtime::new()?`
may fail with an io::Error before the wrapped reader is driven; the outcome of
that creation is the input `rt`: `some e` means creation failed with error `e`
and the call returns it at the `?`, `none` means it succeeded, in which case
`block_on`/`poll_fn` drive `poll_read` to completion and the filled length is
returned (here, the filled bytes themselves). -/
def blockingRead (rt : Option ε) (cap : Nat) (r : ImplBlockingRead ε) :
    Except ε Chunk × ImplBlockingRead ε :=
  match rt with
  | some e => (Except.error e, r)
  | none =>
    let p := pollRead cap r.inner
    (p.1, ⟨p.2⟩)

/-- Run one cooperative `poll_read` per entry of `sizes` (the capacities of
the successive target buffers), collecting the per-call results. -/
def runAsync (sizes : List Nat) (s : ImplAsyncRead ε) :
    List (Except ε Chunk) × ImplAsyncRead ε :=
  match sizes with
  | [] => ([], s)
  | cap :: rest =>
    let p := pollRead cap s
    let q := runAsync rest p.2
    (p.1 :: q.1, q.2)

/-- Run one blocking `read` per entry of `sizes`; `rts j` is the outcome of
the runtime creation attempted by the `j`-th call (counting from `k`). -/
def runBlocking (rts : Nat → Option ε) (k : Nat) (sizes : List Nat)
    (r : ImplBlockingRead ε) : List (Except ε Chunk) × ImplBlockingRead ε :=
  match sizes with
  | [] => ([], r)
  | cap :: rest =>
    let p := blockingRead (rts k) cap r
    let q := runBlocking rts (k + 1) rest p.2
    (p.1 :: q.1, q.2)

/-- Repeatedly call `poll_read`, taking the capacity of the `k`-th call from
`sizes`, until a call returns zero bytes with no error; concatenate the bytes
of all calls.  Stops with `none` when the fuel runs out or a call fails. -/
def readAll (fuel : Nat) (sizes : Nat → Nat) (k : Nat) (s : ImplAsyncRead ε) :
    Option (Chunk × ImplAsyncRead ε) :=
  match fuel with
  | 0 => none
  | fuel + 1 =>
    match pollRead (sizes k) s with
    | (Except.ok out, s1) =>
      if out.isEmpty then some ([], s1)
      else (readAll fuel sizes (k + 1) s1).map (fun p => (out ++ p.1, p.2))
    | (Except.error _, _) => none

/-- The successful payloads of a list of stream items, in order. -/
def payloads : List (Item ε) → List Chunk
  | [] => []
  | Except.ok b :: rest => b :: payloads rest
  | Except.error _ :: rest => payloads rest

/-- True when every item of the list is a successful, non-empty chunk. -/
def goodItems (l : List (Item ε)) : Bool :=
  l.all fun i =>
    match i with
    | Except.ok b => !b.isEmpty
    | Except.error _ => false

/-- All bytes the reader can still deliver: the retained buffer followed by
the payloads of the not-yet-pulled items. -/
def contents (s : ImplAsyncRead ε) : Chunk :=
  s.buffer ++ (payloads s.stream).flatten

/-- Termination measure for `readAll`: pending items plus pending bytes. -/
def wt (s : ImplAsyncRead ε) : Nat :=
  s.stream.length + s.buffer.length + (payloads s.stream).flatten.length

/-! ### Helper lemmas -/

theorem pollRead_done_preserves (cap : Nat) (s : ImplAsyncRead ε)
    (hd : s.done = true) :
    (pollRead cap s).2.polls = s.polls ∧ (pollRead cap s).2.stream = s.stream ∧
      (pollRead cap s).2.done = true := by
  obtain ⟨buf, stream, done, polls⟩ := s
  dsimp only at hd
  subst hd
  cases buf with
  | nil => simp [pollRead, fusePoll, serve]
  | cons x xs => simp [pollRead, fusePoll, serve]

theorem pollRead_done_empty (cap : Nat) (s : ImplAsyncRead ε)
    (hd : s.done = true) (hb : s.buffer = []) :
    pollRead cap s = (Except.ok [], s) := by
  obtain ⟨buf, stream, done, polls⟩ := s
  dsimp only at hd hb
  subst hd
  subst hb
  simp [pollRead, fusePoll]

theorem runAsync_done_empty (sizes : List Nat) (s : ImplAsyncRead ε)
    (hd : s.done = true) (hb : s.buffer = []) :
    runAsync sizes s = (List.replicate sizes.length (Except.ok []), s) := by
  induction sizes with
  | nil => simp [runAsync]
  | cons cap rest ih =>
    simp [runAsync, pollRead_done_empty cap s hd hb, ih, List.replicate_succ]

theorem runAsync_done_preserves (sizes : List Nat) (s : ImplAsyncRead ε)
    (hd : s.done = true) :
    (runAsync sizes s).2.polls = s.polls ∧ (runAsync sizes s).2.stream = s.stream ∧
      (runAsync sizes s).2.done = true := by
  induction sizes generalizing s with
  | nil => exact ⟨rfl, rfl, hd⟩
  | cons cap rest ih =>
    have h1 := pollRead_done_preserves cap s hd
    have h2 := ih (pollRead cap s).2 h1.2.2
    exact ⟨h2.1.trans h1.1, h2.2.1.trans h1.2.1, h2.2.2⟩

theorem pollRead_polls_le (cap : Nat) (s : ImplAsyncRead ε) :
    (pollRead cap s).2.polls ≤ s.polls + 1 := by
  obtain ⟨buf, stream, done, polls⟩ := s
  rcases buf with _ | ⟨x, xs⟩ <;> rcases done <;>
      rcases stream with _ | ⟨e | b, rest⟩ <;>
    simp [pollRead, fusePoll, serve]

theorem pollRead_stream_len (cap : Nat) (s : ImplAsyncRead ε) :
    s.stream.length ≤ (pollRead cap s).2.stream.length + 1 := by
  obtain ⟨buf, stream, done, polls⟩ := s
  rcases buf with _ | ⟨x, xs⟩ <;> rcases done <;>
      rcases stream with _ | ⟨e | b, rest⟩ <;>
    simp [pollRead, fusePoll, serve]

theorem pollRead_step (cap : Nat) (s : ImplAsyncRead ε)
    (hgood : goodItems s.stream = true) (hd : s.done = false) (hcap : 0 < cap) :
    ∃ out s1, pollRead cap s = (Except.ok out, s1) ∧
      out ++ contents s1 = contents s ∧
      goodItems s1.stream = true ∧
      (out = [] → contents s = [] ∧ s1.done = true ∧ s1.buffer = []) ∧
      (out ≠ [] → s1.done = false ∧ wt s1 < wt s) := by
  obtain ⟨buf, stream, done, polls⟩ := s
  dsimp only at hgood hd
  subst hd
  cases buf with
  | cons x xs =>
    have hn : 0 < min cap (x :: xs).length := by
      simp [Nat.lt_min]
      omega
    refine ⟨(x :: xs).take (min cap (x :: xs).length),
      ⟨(x :: xs).drop (min cap (x :: xs).length), stream, false, polls⟩,
      by simp [pollRead, serve], ?_, hgood, ?_, ?_⟩
    · simp [contents, ← List.append_assoc, List.take_append_drop]
    · intro h
      have := List.take_eq_nil_iff.mp h
      simp at this
      omega
    · intro h
      refine ⟨rfl, ?_⟩
      simp [wt, List.length_drop]
      omega
  | nil =>
    cases stream with
    | nil =>
      refine ⟨[], ⟨[], [], true, polls + 1⟩, by simp [pollRead, fusePoll], ?_, rfl,
        fun _ => ⟨rfl, rfl, rfl⟩, fun h => absurd rfl h⟩
      simp [contents, payloads]
    | cons i rest =>
      cases i with
      | error e => simp [goodItems] at hgood
      | ok b =>
        have hrest : goodItems rest = true := by
          simp [goodItems] at hgood ⊢
          exact fun i hi => (hgood.2 i hi)
        have hbne : b ≠ [] := by
          simp [goodItems] at hgood
          exact hgood.1
        have hblen : 0 < b.length := List.length_pos.mpr hbne
        have hn : 0 < min cap b.length := Nat.lt_min.mpr ⟨hcap, hblen⟩
        refine ⟨b.take (min cap b.length),
          ⟨b.drop (min cap b.length), rest, false, polls + 1⟩,
          by simp [pollRead, fusePoll, serve], ?_, hrest, ?_, ?_⟩
        · simp [contents, payloads, ← List.append_assoc, List.take_append_drop]
        · intro h
          rcases List.take_eq_nil_iff.mp h with h0 | h0
          · omega
          · exact absurd h0 hbne
        · intro h
          refine ⟨rfl, ?_⟩
          simp [wt, payloads, List.length_drop]
          omega

theorem readAll_eq (fuel : Nat) :
    ∀ (k : Nat) (s : ImplAsyncRead ε) (sizes : Nat → Nat),
      (∀ j, 0 < sizes j) → goodItems s.stream = true → s.done = false →
      wt s < fuel → ∃ sf, readAll fuel sizes k s = some (contents s, sf) := by
  induction fuel with
  | zero =>
    intro k s sizes hsz hgood hd hwt
    exact absurd hwt (Nat.not_lt_zero _)
  | succ fuel ih =>
    intro k s sizes hsz hgood hd hwt
    obtain ⟨out, s1, heq, hcat, hgood1, hzero, hnz⟩ :=
      pollRead_step (sizes k) s hgood hd (hsz k)
    by_cases hout : out = []
    · subst hout
      refine ⟨s1, ?_⟩
      have hc := (hzero rfl).1
      simp [readAll, heq, hc]
    · obtain ⟨hd1, hwt1⟩ := hnz hout
      obtain ⟨sf, hrec⟩ := ih (k + 1) s1 sizes hsz hgood1 hd1 (by omega)
      refine ⟨sf, ?_⟩
      simp [readAll, heq, hout, hrec, ← hcat]

theorem pollRead_zero_done (cap : Nat) (s s1 : ImplAsyncRead ε)
    (hgood : goodItems s.stream = true) (hcap : 0 < cap)
    (h : pollRead cap s = (Except.ok [], s1)) :
    s1.done = true ∧ s1.buffer = [] := by
  cases hd : s.done with
  | true =>
    cases hb : s.buffer with
    | nil =>
      rw [pollRead_done_empty cap s hd hb] at h
      have h2 : s = s1 := congrArg Prod.snd h
      rw [← h2]
      exact ⟨hd, hb⟩
    | cons x xs =>
      exfalso
      obtain ⟨buf, stream, done, polls⟩ := s
      dsimp only at hb hd
      subst hb
      subst hd
      simp [pollRead, serve] at h
      have h0 : cap = 0 := h.1
      omega
  | false =>
    obtain ⟨out, s2, heq, hcat, hgood1, hzero, hnz⟩ :=
      pollRead_step cap s hgood hd hcap
    rw [heq] at h
    have hout : out = [] := by
      have h1 : Except.ok out = (Except.ok [] : Except ε Chunk) := congrArg Prod.fst h
      simpa using h1
    have hs2 : s2 = s1 := congrArg Prod.snd h
    obtain ⟨-, hdone, hbuf⟩ := hzero hout
    rw [← hs2]
    exact ⟨hdone, hbuf⟩

/-! ### Claim theorems -/

/-- C4: every single `poll_read` call on the reader polls the wrapped source
at most once, even when the target capacity exceeds the chunk length: the
ghost poll counter grows by at most one and the pending stream loses at most
one item. -/
theorem pollRead_at_most_one_pull (cap : Nat) (s : ImplAsyncRead ε) :
    (pollRead cap s).2.polls ≤ s.polls + 1 ∧
      s.stream.length ≤ (pollRead cap s).2.stream.length + 1 :=
  ⟨pollRead_polls_le cap s, pollRead_stream_len cap s⟩

/-- C5: once the fused stream has recorded exhaustion (`done = true`), no
subsequent sequence of reads polls the underlying source again (the ghost
poll counter and the pending stream are unchanged), and if the retained
buffer is empty every subsequent read immediately returns zero bytes with no
error, leaving the reader untouched. -/
theorem eos_sticky (sizes : List Nat) (s : ImplAsyncRead ε) (hd : s.done = true) :
    ((runAsync sizes s).2.polls = s.polls ∧ (runAsync sizes s).2.stream = s.stream) ∧
      (s.buffer = [] → runAsync sizes s = (List.replicate sizes.length (Except.ok []), s)) :=
  ⟨⟨(runAsync_done_preserves sizes s hd).1, (runAsync_done_preserves sizes s hd).2.1⟩,
    fun hb => runAsync_done_empty sizes s hd hb⟩

/-- C5 witness: from a done reader with empty retained buffer and five recorded
polls, two further reads poll nothing, return zero bytes each, and leave the
reader unchanged. -/
theorem eos_sticky_witness :
    ((runAsync [1, 2] (⟨[], [], true, 5⟩ : ImplAsyncRead Nat)).2.polls = 5 ∧
      (runAsync [1, 2] (⟨[], [], true, 5⟩ : ImplAsyncRead Nat)).2.stream = []) ∧
      runAsync [1, 2] (⟨[], [], true, 5⟩ : ImplAsyncRead Nat)
        = ([Except.ok [], Except.ok []], ⟨[], [], true, 5⟩) :=
  ⟨(eos_sticky [1, 2] ⟨[], [], true, 5⟩ rfl).1,
    (eos_sticky [1, 2] ⟨[], [], true, 5⟩ rfl).2 rfl⟩

/-- C6: `from_bytes` sets the size hint to exactly the buffer length,
`new_with_size` stores the given hint unchanged, `new` stores none, and
reading the size hint returns the receiver untouched, so it never consumes or
advances the wrapped source. -/
theorem size_hint_spec (buf : Chunk) (stream : List (Item ε)) (n : Nat)
    (bs : ByteStream ε) :
    (ByteStream.from_bytes buf : ByteStream ε).size_hint = some buf.length ∧
      (ByteStream.new_with_size stream n).size_hint = some n ∧
      (ByteStream.new stream).size_hint = none ∧
      bs.sizeHintFn = (bs.size_hint, bs) ∧
      bs.sizeHintFn.2.inner = bs.inner :=
  ⟨rfl, rfl, rfl, rfl, rfl⟩

/-- C8: when the retained buffer is empty and the not-yet-done source yields
an error, `poll_read` returns exactly that error, the buffer stays empty, and
the source is polled exactly once in the call (no retry). -/
theorem error_passthrough (cap : Nat) (s : ImplAsyncRead ε) (e : ε)
    (rest : List (Item ε)) (hb : s.buffer = []) (hd : s.done = false)
    (hs : s.stream = Except.error e :: rest) :
    pollRead cap s = (Except.error e, { s with stream := rest, polls := s.polls + 1 }) := by
  obtain ⟨buf, stream, done, polls⟩ := s
  dsimp only at hb hd hs
  subst hb
  subst hd
  subst hs
  simp [pollRead, fusePoll]

/-- C8 witness: a reader whose source yields `Err(42)` first propagates the
error unchanged on a read of capacity 3, with the buffer still empty and the
poll counter advanced by exactly one. -/
theorem error_passthrough_witness :
    pollRead 3 (⟨[], [Except.error 42, Except.ok [1]], false, 0⟩ : ImplAsyncRead Nat)
      = (Except.error 42, ⟨[], [Except.ok [1]], false, 1⟩) :=
  error_passthrough 3 ⟨[], [Except.error 42, Except.ok [1]], false, 0⟩ 42
    [Except.ok [1]] rfl rfl rfl

/-- C9: when creating the per-call runtime fails, the blocking read returns
that error and the wrapped cooperative reader is completely untouched. -/
theorem blocking_rt_failure (e : ε) (cap : Nat) (r : ImplBlockingRead ε) :
    blockingRead (some e) cap r = (Except.error e, r) :=
  rfl

/-- C10: pulling a successful zero-length chunk while the retained buffer is
empty makes the read return zero bytes with no error, with the source not
exhausted (`done` still false); a later read can still return bytes, as the
concrete two-chunk run shows. -/
theorem empty_chunk_zero_read (cap : Nat) (s : ImplAsyncRead ε)
    (rest : List (Item ε)) (hb : s.buffer = []) (hd : s.done = false)
    (hs : s.stream = Except.ok [] :: rest) :
    pollRead cap s = (Except.ok [], { s with stream := rest, polls := s.polls + 1 }) ∧
      (pollRead 1 (pollRead 1
        ((ByteStream.new [Except.ok [], Except.ok [7]] : ByteStream ε).into_async_read)).2).1
        = Except.ok [7] := by
  constructor
  · obtain ⟨buf, stream, done, polls⟩ := s
    dsimp only at hb hd hs
    subst hb
    subst hd
    subst hs
    simp [pollRead, fusePoll, serve]
  · rfl

/-- C10 witness: the property instantiated on the stream `Ok [], Ok [7]` with
a capacity-1 target buffer. -/
theorem empty_chunk_zero_read_witness :
    pollRead 1 (⟨[], [Except.ok [], Except.ok [7]], false, 0⟩ : ImplAsyncRead Nat)
        = (Except.ok [], ⟨[], [Except.ok [7]], false, 1⟩) ∧
      (pollRead 1 (pollRead 1
        ((ByteStream.new [Except.ok [], Except.ok [7]] : ByteStream Nat).into_async_read)).2).1
        = Except.ok [7] :=
  empty_chunk_zero_read 1 ⟨[], [Except.ok [], Except.ok [7]], false, 0⟩
    [Except.ok [7]] rfl rfl rfl

/-- C1 amended: for every error-free chunk sequence in which every chunk is
non-empty and every target-buffer capacity is positive, repeatedly calling
read until a call returns zero bytes yields exactly the concatenation of the
chunks, in order, however the capacities slice the chunk boundaries. -/
theorem readAll_concat (bs : ByteStream ε) (sizes : Nat → Nat) (fuel : Nat)
    (hgood : goodItems bs.inner = true) (hsz : ∀ j, 0 < sizes j)
    (hfuel : wt bs.into_async_read < fuel) :
    ∃ sf, readAll fuel sizes 0 bs.into_async_read
        = some ((payloads bs.inner).flatten, sf) := by
  have h := readAll_eq fuel 0 bs.into_async_read sizes hsz hgood rfl hfuel
  simpa [contents, ByteStream.into_async_read] using h

/-- C1 witness: chunks `1234` and `5678` read through capacity-3 buffers
concatenate to `12345678`. -/
theorem readAll_concat_witness :
    ∃ sf, readAll 20 (fun _ => 3) 0
        ((ByteStream.new [Except.ok [1, 2, 3, 4], Except.ok [5, 6, 7, 8]] :
          ByteStream Nat).into_async_read)
        = some ([1, 2, 3, 4, 5, 6, 7, 8], sf) :=
  readAll_concat (ByteStream.new [Except.ok [1, 2, 3, 4], Except.ok [5, 6, 7, 8]])
    (fun _ => 3) 20 rfl (fun _ => Nat.succ_pos 2) (by decide)

/-- C2 amended: provided the source yields only non-empty chunks, once a read
with a positive-capacity target buffer returns zero bytes with no error,
every subsequent read returns zero bytes with no error, leaving the reader
unchanged. -/
theorem zero_read_sticky (cap : Nat) (s s1 : ImplAsyncRead ε) (sizes : List Nat)
    (hgood : goodItems s.stream = true) (hcap : 0 < cap)
    (h : pollRead cap s = (Except.ok [], s1)) :
    runAsync sizes s1 = (List.replicate sizes.length (Except.ok []), s1) := by
  obtain ⟨hd1, hb1⟩ := pollRead_zero_done cap s s1 hgood hcap h
  exact runAsync_done_empty sizes s1 hd1 hb1

/-- C2 witness: a fresh reader over the exhausted stream returns zero bytes on
its first capacity-1 read, and the two following reads also return zero
bytes. -/
theorem zero_read_sticky_witness :
    runAsync [1, 2] (⟨[], [], true, 1⟩ : ImplAsyncRead Nat)
      = ([Except.ok [], Except.ok []], ⟨[], [], true, 1⟩) :=
  zero_read_sticky 1 ⟨[], [], false, 0⟩ ⟨[], [], true, 1⟩ [1, 2] rfl
    (Nat.succ_pos 0) rfl

/-- C3 amended: a zero-capacity read always writes zero bytes; when the
retained buffer is non-empty it pulls nothing and leaves the reader
unchanged; when the buffer is empty it may pull at most one chunk into the
retained buffer. -/
theorem zero_cap_read (s : ImplAsyncRead ε) :
    (s.buffer ≠ [] → pollRead 0 s = (Except.ok [], s)) ∧
      (∀ out s1, pollRead 0 s = (Except.ok out, s1) → out = []) ∧
      (pollRead 0 s).2.polls ≤ s.polls + 1 := by
  refine ⟨?_, ?_, pollRead_polls_le 0 s⟩
  · intro hb
    obtain ⟨buf, stream, done, polls⟩ := s
    dsimp only at hb
    cases buf with
    | nil => exact absurd rfl hb
    | cons x xs => simp [pollRead, serve]
  · intro out s1 h
    obtain ⟨buf, stream, done, polls⟩ := s
    rcases buf with _ | ⟨x, xs⟩ <;> rcases done <;>
        rcases stream with _ | ⟨e | b, rest⟩ <;>
      simp [pollRead, fusePoll, serve] at h <;>
      exact h.1

/-- C3 witness: with retained buffer `[9]`, a zero-capacity read returns zero
bytes, pulls nothing, and leaves the reader unchanged, the poll counter
growing by at most one. -/
theorem zero_cap_read_witness :
    pollRead 0 (⟨[9], [], false, 0⟩ : ImplAsyncRead Nat)
        = (Except.ok [], ⟨[9], [], false, 0⟩) ∧
      (pollRead 0 (⟨[9], [], false, 0⟩ : ImplAsyncRead Nat)).2.polls ≤ 0 + 1 :=
  ⟨(zero_cap_read ⟨[9], [], false, 0⟩).1 (by decide),
    (zero_cap_read ⟨[9], [], false, 0⟩).2.2⟩

/-- C7: when every per-call runtime creation succeeds, the blocking reader and
the cooperative reader over the same state produce identical per-call results
for any sequence of target-buffer capacities: the same bytes (hence the same
byte counts) and the same errors at the same calls. -/
theorem blocking_async_equiv (rts : Nat → Option ε) (k : Nat) (sizes : List Nat)
    (s : ImplAsyncRead ε) (hrt : ∀ j, rts j = none) :
    runBlocking rts k sizes ⟨s⟩ = ((runAsync sizes s).1, ⟨(runAsync sizes s).2⟩) := by
  induction sizes generalizing k s with
  | nil => rfl
  | cons cap rest ih =>
    simp [runBlocking, runAsync, blockingRead, hrt k, ih (k + 1) (pollRead cap s).2]

/-- C7 witness: the spec's concrete scenario, chunks `1234` and `5678` read
through capacity-3 buffers: the blocking reader yields reads of 3, 1, 3, 1
and 0 bytes with exactly the bytes the cooperative reader yields. -/
theorem blocking_async_equiv_witness :
    runBlocking (fun _ => none) 0 [3, 3, 3, 3, 3]
        ((ByteStream.new [Except.ok [1, 2, 3, 4], Except.ok [5, 6, 7, 8]] :
          ByteStream Nat).into_blocking_read)
      = ([Except.ok [1, 2, 3], Except.ok [4], Except.ok [5, 6, 7], Except.ok [8],
          Except.ok []], ⟨⟨[], [], true, 3⟩⟩) :=
  blocking_async_equiv (fun _ => none) 0 [3, 3, 3, 3, 3]
    ((ByteStream.new [Except.ok [1, 2, 3, 4], Except.ok [5, 6, 7, 8]] :
      ByteStream Nat).into_async_read) (fun _ => rfl)

/-- C2 counterexample: on the stream `Ok [], Ok [7]` with capacity-1 target
buffers, the first read returns zero bytes with no error, yet the next read on
the same reader returns one byte, refuting the claim that a zero-byte
error-free read makes all subsequent reads zero-byte. -/
theorem zero_read_sticky_cex :
    (pollRead 1 ((ByteStream.new [Except.ok [], Except.ok [7]] :
        ByteStream Nat).into_async_read)).1 = Except.ok [] ∧
      (pollRead 1 (pollRead 1 ((ByteStream.new [Except.ok [], Except.ok [7]] :
        ByteStream Nat).into_async_read)).2).1 = Except.ok [7] :=
  ⟨rfl, rfl⟩

/-- C3 counterexample: a zero-capacity read on a fresh reader over the
one-chunk stream `Ok [1]` still pulls the chunk: it returns zero bytes, but
the retained buffer changes from empty to `[1]` and the source is polled
once, refuting the claim that a zero-capacity read never pulls a chunk and
leaves the retained buffer unchanged. -/
theorem zero_cap_read_cex :
    pollRead 0 ((ByteStream.new [Except.ok [1]] : ByteStream Nat).into_async_read)
        = (Except.ok [], ⟨[1], [], false, 1⟩) ∧
      (pollRead 0 ((ByteStream.new [Except.ok [1]] :
        ByteStream Nat).into_async_read)).2.buffer ≠
        ((ByteStream.new [Except.ok [1]] : ByteStream Nat).into_async_read).buffer ∧
      (pollRead 0 ((ByteStream.new [Except.ok [1]] :
        ByteStream Nat).into_async_read)).2.polls
        = ((ByteStream.new [Except.ok [1]] : ByteStream Nat).into_async_read).polls + 1 :=
  ⟨rfl, by decide, rfl⟩

/-- C1 counterexample: on the error-free chunk sequence `[], [7]` with
capacity-1 target buffers, reading until a call returns zero bytes stops at
the empty chunk, so the concatenation of all bytes read is `[]`, while the
concatenation of the chunks is `[7]`. -/
theorem readAll_concat_cex :
    (readAll 5 (fun _ => 1) 0 ((ByteStream.new [Except.ok [], Except.ok [7]] :
        ByteStream Nat).into_async_read)).map Prod.fst = some [] ∧
      (payloads ([Except.ok [], Except.ok [7]] : List (Item Nat))).flatten = [7] ∧
      ([] : Chunk) ≠ [7] :=
  ⟨rfl, rfl, by decide⟩

end RusotoStream
